import Mathlib

/-!
Shallow embedding of the serial-chiller repository.

The repository has two Python source files:
* src/main.py — the Session Driver (class SerialWorker): opens a serial port,
  iterates a list of (command, parameter) pairs, frames and transmits each
  command, reads one response line per command, emits events, and supports
  cooperative cancellation via a boolean flag.
* src/chiller.py — the Device Responder (simulate_chiller): an endless loop
  that reads command lines terminated by CR, classifies them and writes back a
  canned response.

Machine strings are modelled as Lean String values (String is a structure
holding a List Char); raw bytes on the wire are modelled as List Nat.
Stateful interaction of the driver with the serial transport is modelled by an
explicit environment (Env below) giving the outcome of the open call, of each
per-command write/read exchange, and the point at which the cancellation flag
becomes visible.  The trace of observable actions (events emitted, the close
call on the port) is computed as a list.
-/

namespace SerialChiller

/-! ## Character and string helpers (Python string primitives) -/

/-- The whitespace characters recognised by the Python str.strip method on the
ASCII range: space, tab, newline, carriage return, vertical tab, form feed. -/
def isSpaceChar (c : Char) : Bool :=
  c = ' ' || c = '\t' || c = '\n' || c = '\r' || c = '\x0b' || c = '\x0c'

/-- Python str.lstrip on a list of characters. -/
def pyLStrip (l : List Char) : List Char := l.dropWhile isSpaceChar

/-- Python str.rstrip on a list of characters. -/
def pyRStrip (l : List Char) : List Char := (l.reverse.dropWhile isSpaceChar).reverse

/-- Python str.strip on a list of characters. -/
def pyStrip (l : List Char) : List Char := pyRStrip (pyLStrip l)

/-- Python s.strip() on a string. -/
def pyStripStr (s : String) : String := ⟨pyStrip s.data⟩

/-- Python s.rstrip("\r\n"): removes every trailing CR or LF character. -/
def dropTrailingRN (l : List Char) : List Char :=
  (l.reverse.dropWhile (fun c => c = '\r' || c = '\n')).reverse

/-- Python s.split(" ", 1): the part before the first space and, when a space
occurs, the part after it.  Models both parts of the split used by
simulate_chiller (src/chiller.py lines 33 and 39). -/
def splitFirstSpace : List Char → List Char × Option (List Char)
  | [] => ([], none)
  | c :: rest =>
    if c = ' ' then ([], some rest)
    else
      let r := splitFirstSpace rest
      (c :: r.1, r.2)

/-! ## Command Frame Codec (src/main.py lines 51-58, 62, 66, 73) -/

/-- Frame construction from SerialWorker.run, src/main.py lines 51-58: the
parameter is appended after a space only when it is neither None nor the empty
string, and the terminator is CRLF when append_newline is set, CR otherwise. -/
def encodeFrame (appendNewline : Bool) (cmd : String) (param : Option String) : String :=
  let base :=
    match param with
    | some p => if p ≠ "" then cmd ++ " " ++ p else cmd
    | none => cmd
  if appendNewline then base ++ "\r\n" else base ++ "\r"

/-- Python s.encode("ascii"): yields the byte sequence when every character is
ASCII and raises (here: none) otherwise.  Used at the write calls in
src/main.py lines 62 and 66. -/
def encodeAscii (s : String) : Option (List Nat) :=
  if s.data.all (fun c => c.toNat < 128) then some (s.data.map Char.toNat) else none

/-- Python bytes.decode("ascii", errors="ignore"): non-ASCII bytes are dropped,
ASCII bytes become the corresponding characters. -/
def decodeAsciiIgnore (bs : List Nat) : List Char :=
  bs.filterMap (fun b => if b < 128 then some (Char.ofNat b) else none)

/-- Response decoding from src/main.py line 73:
raw_response.decode("ascii", errors="ignore").rstrip("\x7b backslash r backslash n\x7d"). -/
def decodeLine (bs : List Nat) : String := ⟨dropTrailingRN (decodeAsciiIgnore bs)⟩

/-! ## Transmission paths (src/main.py lines 60-67) -/

/-- Byte-at-a-time transmission, src/main.py lines 61-64: iterate over the
characters of the frame, encoding and writing each one; a non-ASCII character
makes ch.encode("ascii") raise, stopping the loop with the bytes written so
far on the wire.  Result: (bytes written, completed without exception). -/
def bytewiseWrite : List Char → List Nat × Bool
  | [] => ([], true)
  | c :: rest =>
    if c.toNat < 128 then
      let r := bytewiseWrite rest
      (c.toNat :: r.1, r.2)
    else ([], false)

/-- Atomic transmission, src/main.py line 66: full_command.encode("ascii")
raises before anything is written when the frame is not pure ASCII, otherwise
the whole frame is written in one call. -/
def atomicWrite (s : String) : List Nat × Bool :=
  match encodeAscii s with
  | some bs => (bs, true)
  | none => ([], false)

/-! ## Device Responder (src/chiller.py) -/

/-- The module-level RESPONSES dictionary of src/chiller.py lines 5-15. -/
def RESPONSES : List (String × String) :=
  [("VERSION", "JULABO_V3.0"),
   ("status", "03 REMOTE START"),
   ("in_mode_05", "1"),
   ("in_mode_04", "0"),
   ("in_sp_06", "14.55"),
   ("in_sp_00", "2.00"),
   ("in_pv_00", "14.55"),
   ("in_pv_02", "---.--"),
   ("in_pv_01", "-100")]

/-- The classification step of simulate_chiller, src/chiller.py lines 32-45,
applied to the already trimmed line text: prefix test for out_sp_00, then for
out_mode_05, each splitting on the first space, and finally
RESPONSES.get(data, "OK"). -/
def dispatch (data : String) : String :=
  if "out_sp_00".data.isPrefixOf data.data then
    match (splitFirstSpace data.data).2 with
    | some rem => "Setpoint updated to " ++ ⟨rem⟩
    | none => "Missing parameter for out_sp_00"
  else if "out_mode_05".data.isPrefixOf data.data then
    match (splitFirstSpace data.data).2 with
    | some rem => if rem = "1".data then "Chiller turned on" else "Chiller turned off"
    | none => "Missing parameter for out_mode_05"
  else
    match RESPONSES.lookup data with
    | some r => r
    | none => "OK"

/-- ser.read_until(b(CR)) of src/chiller.py line 29 viewed on the decoded
stream: the line up to and including the first CR, and the remaining stream.
When no CR is present the whole stream is returned (a timeout delivers the
partial data). -/
def splitAtCR : List Char → List Char × List Char
  | [] => ([], [])
  | c :: rest =>
    if c = '\r' then ([c], rest)
    else
      let r := splitAtCR rest
      (c :: r.1, r.2)

theorem splitAtCR_snd_le (l : List Char) : (splitAtCR l).2.length ≤ l.length := by
  induction l with
  | nil => simp [splitAtCR]
  | cons c rest ih =>
    simp only [splitAtCR]
    by_cases h : c = '\r'
    · simp [h]
    · simp only [h, if_false]
      simp only [List.length_cons]
      omega

/-- The read-classify-respond loop of simulate_chiller, src/chiller.py lines
27-51, run over a finite inbound stream: repeatedly take one CR-terminated
line, trim it, skip empty lines, and collect the response produced for each
non-empty line.  The sleeps and the echoed terminator of the reply are timing
and outbound-framing details that do not affect classification. -/
def chillerRun : List Char → List String
  | [] => []
  | c :: rest =>
    if (pyStrip (splitAtCR (c :: rest)).1).isEmpty then chillerRun (splitAtCR (c :: rest)).2
    else dispatch ⟨pyStrip (splitAtCR (c :: rest)).1⟩ :: chillerRun (splitAtCR (c :: rest)).2
termination_by l => l.length
decreasing_by
  all_goals
    have h := splitAtCR_snd_le rest
    simp only [splitAtCR]
    by_cases hc : c = '\r'
    · simp [hc]
    · simp only [hc, if_false]
      simp only [List.length_cons]
      omega

/-- The inbound stream produced by terminating each of a list of commands with
a fixed terminator, in order. -/
def stream (term : List Char) : List String → List Char
  | [] => []
  | c :: cs => c.data ++ term ++ stream term cs

/-! ## Session Driver (src/main.py, class SerialWorker) -/

/-- Outcome of the write/flush/sleep/readline exchange for one command:
either the bytes that readline returned (possibly none), or an exception
raised by a transport call inside the loop body of src/main.py lines 60-74. -/
inductive StepOutcome where
  | ok (resp : List Nat)
  | err
deriving DecidableEq

/-- The environment of one run of SerialWorker.run: whether the serial.Serial
constructor call of src/main.py lines 39-47 succeeds, the outcome of the
exchange for the i-th command, and the loop index from which the check of
self.(_is_running) at src/main.py line 49 sees the flag cleared by stop()
(none when stop is never called; the flag is monotone, set false once). -/
structure Env where
  openOk : Bool
  outcome : Nat → StepOutcome
  cancelFrom : Option Nat

/-- Observable actions of one run, in order of occurrence: the Sending and
Received texts emitted through update_signal, the Error event of the except
handler (its message text is the exception rendering and is not modelled),
the ser.close() call, and the finished signal (the terminal Done event). -/
inductive Act where
  | sending (text : String)
  | received (text : String)
  | error
  | close
  | finished
deriving DecidableEq

/-- Whether the loop check at index i (src/main.py line 49) sees the
cancellation flag already cleared. -/
def cancelledAt (env : Env) (i : Nat) : Bool :=
  match env.cancelFrom with
  | some k => decide (k ≤ i)
  | none => false

/-- Response text for one command, src/main.py lines 70-73: the literal
"No response" when readline returned no bytes, otherwise the permissive
ASCII decode with trailing CR/LF stripped. -/
def respText (bs : List Nat) : String :=
  if bs.isEmpty then "No response" else decodeLine bs

/-- The bytes readline returns for the i-th command in environments where the
exchange does not raise. -/
def respOf (env : Env) (i : Nat) : List Nat :=
  match env.outcome i with
  | .ok bs => bs
  | .err => []

/-- The per-command loop of SerialWorker.run, src/main.py lines 48-74,
starting at loop index i.  Returns the actions emitted inside the loop and
whether the loop ended without an exception (by exhausting the commands or by
the cancellation break).  The Sending event is emitted before the transmit
calls, so a failing exchange still shows its Sending event. -/
def runCmds (env : Env) (an : Bool) : List (String × Option String) → Nat → List Act × Bool
  | [], _ => ([], true)
  | (c, p) :: rest, i =>
    if cancelledAt env i then ([], true)
    else
      match env.outcome i with
      | .ok bs =>
        let r := runCmds env an rest (i + 1)
        (Act.sending (pyStripStr (encodeFrame an c p)) ::
          Act.received (respText bs) :: r.1, r.2)
      | .err => ([Act.sending (pyStripStr (encodeFrame an c p))], false)

/-- SerialWorker.run, src/main.py lines 37-78: open the port, run the command
loop, close the port after the loop, and on any exception emit the Error
event; the finished signal is emitted in every case.  ser.close() at line 75
is inside the try block and therefore runs only when the loop finished
without an exception.  Result: (trace of actions, port was closed). -/
def runWorker (env : Env) (an : Bool) (cmds : List (String × Option String)) :
    List Act × Bool :=
  if env.openOk then
    let r := runCmds env an cmds 0
    if r.2 then (r.1 ++ [Act.close, Act.finished], true)
    else (r.1 ++ [Act.error, Act.finished], false)
  else ([Act.error, Act.finished], false)

/-- The clean event trace of a failure-free run: one Sending/Received pair per
command, in list order, with the loop index threaded from i. -/
def pairEvents (env : Env) (an : Bool) : List (String × Option String) → Nat → List Act
  | [], _ => []
  | (c, p) :: rest, i =>
    Act.sending (pyStripStr (encodeFrame an c p)) ::
      Act.received (respText (respOf env i)) :: pairEvents env an rest (i + 1)

/-- Recogniser for Sending events. -/
def isSending : Act → Bool
  | .sending _ => true
  | _ => false

/-- Recogniser for Received events. -/
def isReceived : Act → Bool
  | .received _ => true
  | _ => false

/-- Recogniser for the Error event. -/
def isErrorAct : Act → Bool
  | .error => true
  | _ => false

/-- Recogniser for the terminal finished event. -/
def isFinishedAct : Act → Bool
  | .finished => true
  | _ => false

/-- No leading and no trailing whitespace, the hypothesis under which the
codec round-trip is exact. -/
def noEdgeWS (l : List Char) : Prop :=
  (∀ c, l.head? = some c → isSpaceChar c = false) ∧
  (∀ c, l.getLast? = some c → isSpaceChar c = false)

/-! ## Helper lemmas -/

theorem dropWhile_append_all {p : Char → Bool} {a : List Char} (b : List Char)
    (h : ∀ x ∈ a, p x = true) :
    List.dropWhile p (a ++ b) = List.dropWhile p b := by
  induction a with
  | nil => simp
  | cons c rest ih =>
    have hc : p c = true := h c (by simp)
    simp only [List.cons_append, List.dropWhile_cons, hc, if_true]
    exact ih (fun x hx => h x (by simp [hx]))

theorem dropWhile_eq_self_of_head {p : Char → Bool} {l : List Char}
    (h : ∀ c, l.head? = some c → p c = false) :
    List.dropWhile p l = l := by
  cases l with
  | nil => simp
  | cons c rest =>
    have hc : p c = false := h c rfl
    simp [List.dropWhile_cons, hc]

theorem pyLStrip_cons_ws {c : Char} (l : List Char) (h : isSpaceChar c = true) :
    pyLStrip (c :: l) = pyLStrip l := by
  simp [pyLStrip, List.dropWhile_cons, h]

theorem pyRStrip_append_ws {c : Char} (l : List Char) (h : isSpaceChar c = true) :
    pyRStrip (l ++ [c]) = pyRStrip l := by
  simp [pyRStrip, List.dropWhile_cons, h]

theorem pyStrip_cons_ws {c : Char} (l : List Char) (h : isSpaceChar c = true) :
    pyStrip (c :: l) = pyStrip l := by
  simp [pyStrip, pyLStrip_cons_ws l h]

theorem pyStrip_append_ws {c : Char} (l : List Char) (h : isSpaceChar c = true) :
    pyStrip (l ++ [c]) = pyStrip l := by
  simp only [pyStrip, pyLStrip]
  rcases he : List.dropWhile isSpaceChar l with _ | ⟨d, ds⟩
  · have : List.dropWhile isSpaceChar (l ++ [c]) = List.dropWhile isSpaceChar [c] := by
      rw [List.dropWhile_append, he]; simp
    rw [this]
    simp [List.dropWhile_cons, h, pyRStrip]
  · have : List.dropWhile isSpaceChar (l ++ [c]) = List.dropWhile isSpaceChar l ++ [c] := by
      rw [List.dropWhile_append, he]; simp
    rw [this, he, pyRStrip_append_ws _ h]

theorem pyStrip_prefix_ws {a : List Char} (l : List Char)
    (h : ∀ x ∈ a, isSpaceChar x = true) :
    pyStrip (a ++ l) = pyStrip l := by
  induction a with
  | nil => simp
  | cons c rest ih =>
    have hc : isSpaceChar c = true := h c (by simp)
    rw [List.cons_append, pyStrip_cons_ws _ hc]
    exact ih (fun x hx => h x (by simp [hx]))

theorem pyStrip_all_ws {l : List Char} (h : ∀ x ∈ l, isSpaceChar x = true) :
    pyStrip l = [] := by
  have := pyStrip_prefix_ws (a := l) [] h
  simpa [pyStrip, pyLStrip, pyRStrip] using this

theorem splitFirstSpace_no_space {l : List Char} (h : ' ' ∉ l) :
    splitFirstSpace l = (l, none) := by
  induction l with
  | nil => rfl
  | cons c rest ih =>
    have hc : ¬ c = ' ' := fun hx => h (by simp [hx])
    have hr : ' ' ∉ rest := fun hx => h (by simp [hx])
    simp [splitFirstSpace, hc, ih hr]

theorem splitFirstSpace_append {a : List Char} (b : List Char) (h : ' ' ∉ a) :
    splitFirstSpace (a ++ ' ' :: b) = (a, some b) := by
  induction a with
  | nil => simp [splitFirstSpace]
  | cons c rest ih =>
    have hc : ¬ c = ' ' := fun hx => h (by simp [hx])
    have hr : ' ' ∉ rest := fun hx => h (by simp [hx])
    simp [splitFirstSpace, hc, ih hr]

theorem splitAtCR_no_cr {l : List Char} (h : '\r' ∉ l) :
    splitAtCR l = (l, []) := by
  induction l with
  | nil => rfl
  | cons c rest ih =>
    have hc : ¬ c = '\r' := fun hx => h (by simp [hx])
    have hr : '\r' ∉ rest := fun hx => h (by simp [hx])
    simp [splitAtCR, hc, ih hr]

theorem splitAtCR_append {a : List Char} (b : List Char) (h : '\r' ∉ a) :
    splitAtCR (a ++ '\r' :: b) = (a ++ ['\r'], b) := by
  induction a with
  | nil => simp [splitAtCR]
  | cons c rest ih =>
    have hc : ¬ c = '\r' := fun hx => h (by simp [hx])
    have hr : '\r' ∉ rest := fun hx => h (by simp [hx])
    simp [splitAtCR, hc, ih hr]

theorem dropTrailingRN_append {t : List Char} (l : List Char)
    (ht : ∀ x ∈ t, (x = '\r' || x = '\n') = true)
    (hl : ∀ c, l.getLast? = some c → (c = '\r' || c = '\n') = false) :
    dropTrailingRN (l ++ t) = l := by
  unfold dropTrailingRN
  rw [List.reverse_append]
  rw [dropWhile_append_all l.reverse (fun x hx => ht x (List.mem_reverse.mp hx))]
  rw [dropWhile_eq_self_of_head (fun c hc => hl c (by rwa [List.head?_reverse] at hc))]
  exact List.reverse_reverse l

theorem decodeAsciiIgnore_map {l : List Char} (h : ∀ c ∈ l, c.toNat < 128) :
    decodeAsciiIgnore (l.map Char.toNat) = l := by
  induction l with
  | nil => rfl
  | cons c rest ih =>
    have hc : c.toNat < 128 := h c (by simp)
    simp only [List.map_cons, decodeAsciiIgnore, List.filterMap_cons, hc, if_pos,
      Char.ofNat_toNat]
    exact congrArg (c :: ·) (ih (fun x hx => h x (by simp [hx])))

theorem bytewiseWrite_ascii {l : List Char} (h : ∀ c ∈ l, c.toNat < 128) :
    bytewiseWrite l = (l.map Char.toNat, true) := by
  induction l with
  | nil => rfl
  | cons c rest ih =>
    have hc : c.toNat < 128 := h c (by simp)
    simp [bytewiseWrite, hc, ih (fun x hx => h x (by simp [hx]))]

theorem chillerRun_nil : chillerRun [] = [] := by
  rw [chillerRun]

theorem chillerRun_cons (c : Char) (rest : List Char) :
    chillerRun (c :: rest) =
      if (pyStrip (splitAtCR (c :: rest)).1).isEmpty then chillerRun (splitAtCR (c :: rest)).2
      else dispatch ⟨pyStrip (splitAtCR (c :: rest)).1⟩ :: chillerRun (splitAtCR (c :: rest)).2 := by
  rw [chillerRun]

theorem chillerRun_step {line : List Char} (rest : List Char) (h : '\r' ∉ line) :
    chillerRun (line ++ '\r' :: rest) =
      if (pyStrip line).isEmpty then chillerRun rest
      else dispatch ⟨pyStrip line⟩ :: chillerRun rest := by
  have hsplit := splitAtCR_append rest h
  have hstrip : pyStrip (line ++ ['\r']) = pyStrip line :=
    pyStrip_append_ws line (by decide)
  cases line with
  | nil =>
    rw [List.nil_append] at hsplit ⊢
    rw [chillerRun_cons, hsplit]
    simpa using congrArg (fun l =>
      if l.isEmpty then chillerRun rest
      else dispatch ⟨l⟩ :: chillerRun rest) hstrip
  | cons a l =>
    rw [List.cons_append] at hsplit ⊢
    rw [chillerRun_cons, hsplit]
    rw [List.cons_append] at hstrip
    simpa using congrArg (fun l =>
      if l.isEmpty then chillerRun rest
      else dispatch ⟨l⟩ :: chillerRun rest) hstrip

theorem chillerRun_ws_no_cr {l : List Char} (hws : ∀ x ∈ l, isSpaceChar x = true)
    (hcr : '\r' ∉ l) : chillerRun l = [] := by
  cases l with
  | nil => exact chillerRun_nil
  | cons c rest =>
    rw [chillerRun_cons, splitAtCR_no_cr hcr]
    simp [pyStrip_all_ws hws, chillerRun_nil]

theorem runCmds_success (env : Env) (an : Bool) (hc : env.cancelFrom = none)
    (he : ∀ j, env.outcome j ≠ StepOutcome.err) :
    ∀ (cmds : List (String × Option String)) (i : Nat),
      runCmds env an cmds i = (pairEvents env an cmds i, true) := by
  intro cmds
  induction cmds with
  | nil => intro i; rfl
  | cons cp rest ih =>
    intro i
    obtain ⟨c, p⟩ := cp
    have hcan : cancelledAt env i = false := by simp [cancelledAt, hc]
    rcases ho : env.outcome i with bs | _
    · simp [runCmds, pairEvents, hcan, ho, ih (i + 1), respOf]
    · exact absurd ho (he i)

theorem runCmds_cancel (env : Env) (an : Bool) (m : Nat) (hc : env.cancelFrom = some m)
    (he : ∀ j, env.outcome j ≠ StepOutcome.err) :
    ∀ (cmds : List (String × Option String)) (i : Nat),
      runCmds env an cmds i = (pairEvents env an (cmds.take (m - i)) i, true) := by
  intro cmds
  induction cmds with
  | nil => intro i; simp [runCmds, pairEvents]
  | cons cp rest ih =>
    intro i
    obtain ⟨c, p⟩ := cp
    by_cases hi : m ≤ i
    · have hcan : cancelledAt env i = true := by simp [cancelledAt, hc, hi]
      have hz : m - i = 0 := Nat.sub_eq_zero_of_le hi
      simp [runCmds, hcan, hz, pairEvents]
    · have hcan : cancelledAt env i = false := by simp [cancelledAt, hc]; omega
      have hs : m - i = (m - (i + 1)) + 1 := by omega
      rcases ho : env.outcome i with bs | _
      · simp [runCmds, hcan, ho, ih (i + 1), hs, List.take_succ_cons, pairEvents, respOf]
      · exact absurd ho (he i)

theorem pairEvents_length (env : Env) (an : Bool) :
    ∀ (cmds : List (String × Option String)) (i : Nat),
      (pairEvents env an cmds i).length = 2 * cmds.length := by
  intro cmds
  induction cmds with
  | nil => intro i; rfl
  | cons cp rest ih =>
    intro i
    obtain ⟨c, p⟩ := cp
    simp [pairEvents, ih (i + 1)]
    omega

theorem pairEvents_received_at (env : Env) (an : Bool) :
    ∀ (cmds : List (String × Option String)) (i k : Nat), i < cmds.length →
      (pairEvents env an cmds k)[2 * i + 1]? =
        some (Act.received (respText (respOf env (k + i)))) := by
  intro cmds
  induction cmds with
  | nil => intro i k h; exact absurd h (by simp)
  | cons cp rest ih =>
    intro i k h
    obtain ⟨c, p⟩ := cp
    cases i with
    | zero => simp [pairEvents]
    | succ j =>
      have hj : j < rest.length := by simpa using Nat.lt_of_succ_lt_succ h
      have : 2 * (j + 1) + 1 = (2 * j + 1) + 2 := by omega
      rw [this]
      simp only [pairEvents, List.getElem?_cons_succ]
      rw [ih j (k + 1) hj]
      have : k + 1 + j = k + (j + 1) := by omega
      rw [this]

theorem pairEvents_count_sending (env : Env) (an : Bool) :
    ∀ (cmds : List (String × Option String)) (i : Nat),
      List.countP isSending (pairEvents env an cmds i) = cmds.length := by
  intro cmds
  induction cmds with
  | nil => intro i; rfl
  | cons cp rest ih =>
    intro i
    obtain ⟨c, p⟩ := cp
    simp [pairEvents, List.countP_cons, ih (i + 1), isSending]

theorem pairEvents_count_received (env : Env) (an : Bool) :
    ∀ (cmds : List (String × Option String)) (i : Nat),
      List.countP isReceived (pairEvents env an cmds i) = cmds.length := by
  intro cmds
  induction cmds with
  | nil => intro i; rfl
  | cons cp rest ih =>
    intro i
    obtain ⟨c, p⟩ := cp
    simp [pairEvents, List.countP_cons, ih (i + 1), isReceived]

theorem pairEvents_count_error (env : Env) (an : Bool) :
    ∀ (cmds : List (String × Option String)) (i : Nat),
      List.countP isErrorAct (pairEvents env an cmds i) = 0 := by
  intro cmds
  induction cmds with
  | nil => intro i; rfl
  | cons cp rest ih =>
    intro i
    obtain ⟨c, p⟩ := cp
    simp [pairEvents, List.countP_cons, ih (i + 1), isErrorAct]

theorem pairEvents_count_finished (env : Env) (an : Bool) :
    ∀ (cmds : List (String × Option String)) (i : Nat),
      List.countP isFinishedAct (pairEvents env an cmds i) = 0 := by
  intro cmds
  induction cmds with
  | nil => intro i; rfl
  | cons cp rest ih =>
    intro i
    obtain ⟨c, p⟩ := cp
    simp [pairEvents, List.countP_cons, ih (i + 1), isFinishedAct]

theorem getLast?_append_right (a : List Char) {b : List Char} (hb : b ≠ []) :
    (a ++ b).getLast? = b.getLast? := by
  rw [List.getLast?_append]
  rcases hx : b.getLast? with _ | c
  · exact absurd (List.getLast?_eq_none_iff.mp hx) hb
  · rfl

theorem rn_space {c : Char} (h : (c = '\r' || c = '\n') = true) : isSpaceChar c = true := by
  rcases Bool.or_eq_true_iff.mp h with h1 | h1
  · rw [of_decide_eq_true h1]; decide
  · rw [of_decide_eq_true h1]; decide

theorem not_rn {c : Char} (h : isSpaceChar c = false) : (c = '\r' || c = '\n') = false := by
  rcases hx : (c = '\r' || c = '\n') with _ | _
  · rfl
  · simp [rn_space hx] at h

theorem data_ne_nil {p : String} (h : p ≠ "") : p.data ≠ [] := by
  intro hd
  exact h (by cases p; simp_all)

/-! ## Claim theorems -/

/-- C1: the claim states that whenever the transport opens successfully the
port handle is closed before the terminal event on every exit path, including
a transport failure during the per-command send/receive steps.  The code
contradicts this: ser.close() at src/main.py line 75 sits inside the try
block after the loop, so an exception raised by a write or read jumps to the
except handler, which emits the Error event and then the finished signal
without ever closing the port.  This theorem evaluates the embedded run at a
concrete failing input: the transport opens, the exchange for the single
command VERSION raises; the resulting trace is Sending, Error, finished with
no close action, and the run reports the port as not closed. -/
theorem c1_port_left_open_on_transport_error :
    runWorker ⟨true, fun _ => StepOutcome.err, none⟩ false [("VERSION", none)] =
      ([Act.sending "VERSION", Act.error, Act.finished], false) ∧
    Act.close ∉ (runWorker ⟨true, fun _ => StepOutcome.err, none⟩ false [("VERSION", none)]).1 ∧
    Act.finished ∈ (runWorker ⟨true, fun _ => StepOutcome.err, none⟩ false [("VERSION", none)]).1 := by
  decide

/-- C2: when the transport opens, no write/read fails and cancellation is
never requested, the session emits exactly one Sending/Received pair per
command, the i-th pair built from the i-th command in list order (the trace
is the pair list of the commands followed by the close of the port and the
single terminal finished event), with as many Sending and Received events as
commands, exactly one terminal event, and no Error event. -/
theorem c2_success_trace (env : Env) (an : Bool) (cmds : List (String × Option String))
    (ho : env.openOk = true) (hc : env.cancelFrom = none)
    (he : ∀ j, env.outcome j ≠ StepOutcome.err) :
    runWorker env an cmds = (pairEvents env an cmds 0 ++ [Act.close, Act.finished], true) ∧
    List.countP isSending (runWorker env an cmds).1 = cmds.length ∧
    List.countP isReceived (runWorker env an cmds).1 = cmds.length ∧
    List.countP isFinishedAct (runWorker env an cmds).1 = 1 ∧
    List.countP isErrorAct (runWorker env an cmds).1 = 0 := by
  have hrc := runCmds_success env an hc he cmds 0
  have htr : runWorker env an cmds =
      (pairEvents env an cmds 0 ++ [Act.close, Act.finished], true) := by
    simp [runWorker, ho, hrc]
  refine ⟨htr, ?_, ?_, ?_, ?_⟩ <;> rw [htr] <;>
    simp [List.countP_append, pairEvents_count_sending, pairEvents_count_received,
      pairEvents_count_error, pairEvents_count_finished, List.countP_cons,
      isSending, isReceived, isErrorAct, isFinishedAct]

/-- Witness for C2 at a concrete input: two commands against a transport that
answers OK with CRLF to every command. -/
theorem c2_success_trace_witness :
    runWorker ⟨true, fun _ => StepOutcome.ok [79, 75, 13, 10], none⟩ false
        [("VERSION", none), ("status", none)] =
      ([Act.sending "VERSION", Act.received "OK", Act.sending "status", Act.received "OK",
        Act.close, Act.finished], true) := by
  have h := (c2_success_trace ⟨true, fun _ => StepOutcome.ok [79, 75, 13, 10], none⟩ false
    [("VERSION", none), ("status", none)] rfl rfl (fun j => by simp)).1
  rw [h]; decide

/-- C4: for every command in the fixed RESPONSES table, the Device Responder
classification of the bare command line yields exactly the table response
listed in the external-interface section of the spec. -/
theorem c4_table_responses :
    dispatch "VERSION" = "JULABO_V3.0" ∧
    dispatch "status" = "03 REMOTE START" ∧
    dispatch "in_mode_05" = "1" ∧
    dispatch "in_mode_04" = "0" ∧
    dispatch "in_sp_06" = "14.55" ∧
    dispatch "in_sp_00" = "2.00" ∧
    dispatch "in_pv_00" = "14.55" ∧
    dispatch "in_pv_02" = "---.--" ∧
    dispatch "in_pv_01" = "-100" := by
  decide

/-- C5: the encoded outbound frame is the command name, followed by a space
and the parameter exactly when the parameter is present and non-empty,
followed by CRLF when append_newline is set and CR otherwise.  The encoding
is modelled by the pure function encodeFrame; it has no effects. -/
theorem c5_encode_frame (an : Bool) (cmd : String) (param : Option String) :
    (∀ p, param = some p → p ≠ "" →
      encodeFrame an cmd param = cmd ++ " " ++ p ++ (if an then "\r\n" else "\r")) ∧
    (param = none ∨ param = some "" →
      encodeFrame an cmd param = cmd ++ (if an then "\r\n" else "\r")) := by
  constructor
  · intro p hp hne
    subst hp
    cases an <;> simp [encodeFrame, hne]
  · intro h
    rcases h with h | h <;> subst h <;> cases an <;> simp [encodeFrame]

/-- Witness for C5 at a concrete input: name out_sp_00, parameter 24.00,
newline appended. -/
theorem c5_encode_frame_witness :
    encodeFrame true "out_sp_00" (some "24.00") = "out_sp_00 24.00\r\n" := by
  have h := (c5_encode_frame true "out_sp_00" (some "24.00")).1 "24.00" rfl (by decide)
  exact h.trans (by decide)

/-- C9: ignoring timing, the byte-at-a-time transmission path of src/main.py
lines 61-64 puts exactly the same bytes on the wire, in the same order, as
the single atomic write of line 66, for every frame (a frame is an ASCII
byte sequence, so every character of the encoded command is ASCII). -/
theorem c9_transmit_equivalent (an : Bool) (cmd : String) (param : Option String)
    (h : ∀ c ∈ (encodeFrame an cmd param).data, c.toNat < 128) :
    bytewiseWrite (encodeFrame an cmd param).data = atomicWrite (encodeFrame an cmd param) := by
  rw [bytewiseWrite_ascii h]
  simp only [atomicWrite, encodeAscii]
  rw [if_pos (List.all_eq_true.mpr (fun c hc => decide_eq_true (h c hc)))]

/-- Witness for C9 at a concrete input: the frame of command VERSION without
parameter, CR terminator. -/
theorem c9_transmit_equivalent_witness :
    bytewiseWrite (encodeFrame false "VERSION" none).data =
      atomicWrite (encodeFrame false "VERSION" none) :=
  c9_transmit_equivalent false "VERSION" none (by decide)

/-- C6: in a session where the transport is open, nothing fails and
cancellation is never requested, a command whose bounded line read returns no
bytes produces a Received event carrying the literal text No response (the
event at position 2i+1 of the trace for command i), and the session still
runs every remaining command and terminates normally: the trace holds the
full 2N events plus close and the terminal event, and the run is not treated
as an error. -/
theorem c6_empty_read_no_response (env : Env) (an : Bool)
    (cmds : List (String × Option String)) (i : Nat)
    (ho : env.openOk = true) (hc : env.cancelFrom = none)
    (he : ∀ j, env.outcome j ≠ StepOutcome.err)
    (hi : i < cmds.length) (hres : env.outcome i = StepOutcome.ok []) :
    (runWorker env an cmds).1[2 * i + 1]? = some (Act.received "No response") ∧
    (runWorker env an cmds).1.length = 2 * cmds.length + 2 ∧
    (runWorker env an cmds).2 = true := by
  have hrc := runCmds_success env an hc he cmds 0
  have htr : runWorker env an cmds =
      (pairEvents env an cmds 0 ++ [Act.close, Act.finished], true) := by
    simp [runWorker, ho, hrc]
  have hlen := pairEvents_length env an cmds 0
  refine ⟨?_, ?_, by rw [htr]⟩
  · rw [htr]
    have hlt : 2 * i + 1 < (pairEvents env an cmds 0).length := by rw [hlen]; omega
    rw [List.getElem?_append_left hlt, pairEvents_received_at env an cmds i 0 hi]
    simp [respOf, hres, respText]
  · rw [htr]
    simp [hlen]

/-- Witness for C6 at a concrete input: two commands, the first read returns
no bytes, the second returns OK; the event at position 1 is Received
No response and the trace still holds both pairs plus close and finished. -/
theorem c6_empty_read_no_response_witness :
    (runWorker ⟨true, fun j => if j = 0 then StepOutcome.ok [] else StepOutcome.ok [79, 75],
        none⟩ false [("VERSION", none), ("status", none)]).1[1]? =
      some (Act.received "No response") := by
  have h := (c6_empty_read_no_response
    ⟨true, fun j => if j = 0 then StepOutcome.ok [] else StepOutcome.ok [79, 75], none⟩
    false [("VERSION", none), ("status", none)] 0 rfl rfl
    (fun j => by by_cases hj : j = 0 <;> simp [hj]) (by decide) (by simp)).1
  simpa using h

/-- C7: cancellation requested while command k is in flight becomes visible
to the loop check only at index k+1.  The run then completes the full
exchange of command k (its Sending/Received pair is in the trace), emits no
Sending event for any of the commands after k, closes the port and emits the
terminal event: the trace is exactly the pair list of the first k+1 commands
followed by close and finished, with exactly k+1 Sending events and one
terminal event. -/
theorem c7_cancellation_between_commands (env : Env) (an : Bool)
    (cmds : List (String × Option String)) (k : Nat)
    (ho : env.openOk = true) (hcan : env.cancelFrom = some (k + 1))
    (he : ∀ j, env.outcome j ≠ StepOutcome.err) (hk : k < cmds.length) :
    runWorker env an cmds =
      (pairEvents env an (cmds.take (k + 1)) 0 ++ [Act.close, Act.finished], true) ∧
    List.countP isSending (runWorker env an cmds).1 = k + 1 ∧
    List.countP isFinishedAct (runWorker env an cmds).1 = 1 := by
  have hrc := runCmds_cancel env an (k + 1) hcan he cmds 0
  have htr : runWorker env an cmds =
      (pairEvents env an (cmds.take (k + 1)) 0 ++ [Act.close, Act.finished], true) := by
    simp [runWorker, ho, hrc]
  have hlen : (cmds.take (k + 1)).length = k + 1 := by
    rw [List.length_take]
    omega
  refine ⟨htr, ?_, ?_⟩ <;> rw [htr] <;>
    simp [List.countP_append, pairEvents_count_sending, pairEvents_count_finished,
      List.countP_cons, isSending, isFinishedAct, hlen]

/-- Witness for C7 at a concrete input: three commands, cancellation becomes
visible at loop index 1 (requested while command 0 was in flight); the trace
holds the pair of command 0 only, then close and finished. -/
theorem c7_cancellation_between_commands_witness :
    runWorker ⟨true, fun _ => StepOutcome.ok [79, 75], some 1⟩ false
        [("A", none), ("B", none), ("C", none)] =
      ([Act.sending "A", Act.received "OK", Act.close, Act.finished], true) := by
  have h := (c7_cancellation_between_commands
    ⟨true, fun _ => StepOutcome.ok [79, 75], some 1⟩ false
    [("A", none), ("B", none), ("C", none)] 0 rfl rfl (fun j => by simp) (by decide)).1
  rw [h]; decide

/-- C3: classification of a non-empty trimmed line by the Device Responder,
in priority order.  If the line starts with out_sp_00, then splitting it at
its first space: a decomposition line = a ++ space ++ b with no space in a
yields Setpoint updated to b, and a line with no space at all yields the
missing-parameter text.  Else if it starts with out_mode_05: remainder 1
turns the chiller on, any other remainder turns it off, no remainder yields
the missing-parameter text.  Else the line is looked up verbatim in the
RESPONSES table, defaulting to OK when absent. -/
theorem c3_classification (s : String) (_hne : s ≠ "") :
    (("out_sp_00".data.isPrefixOf s.data) = true →
      (∀ a b, s.data = a ++ ' ' :: b → ' ' ∉ a →
        dispatch s = "Setpoint updated to " ++ ⟨b⟩) ∧
      (' ' ∉ s.data → dispatch s = "Missing parameter for out_sp_00")) ∧
    (("out_sp_00".data.isPrefixOf s.data) = false →
      ("out_mode_05".data.isPrefixOf s.data) = true →
      (∀ a b, s.data = a ++ ' ' :: b → ' ' ∉ a →
        dispatch s = if b = "1".data then "Chiller turned on" else "Chiller turned off") ∧
      (' ' ∉ s.data → dispatch s = "Missing parameter for out_mode_05")) ∧
    (("out_sp_00".data.isPrefixOf s.data) = false →
      ("out_mode_05".data.isPrefixOf s.data) = false →
      (∀ r, RESPONSES.lookup s = some r → dispatch s = r) ∧
      (RESPONSES.lookup s = none → dispatch s = "OK")) := by
  refine ⟨?_, ?_, ?_⟩
  · intro hpre
    constructor
    · intro a b hs hsp
      rw [dispatch, if_pos hpre, hs, splitFirstSpace_append b hsp]
    · intro hsp
      rw [dispatch, if_pos hpre, splitFirstSpace_no_space hsp]
  · intro hpre1 hpre2
    constructor
    · intro a b hs hsp
      rw [dispatch, if_neg (by simp [hpre1]), if_pos hpre2, hs,
        splitFirstSpace_append b hsp]
    · intro hsp
      rw [dispatch, if_neg (by simp [hpre1]), if_pos hpre2,
        splitFirstSpace_no_space hsp]
  · intro hpre1 hpre2
    constructor
    · intro r hr
      rw [dispatch, if_neg (by simp [hpre1]), if_neg (by simp [hpre2]), hr]
    · intro hr
      rw [dispatch, if_neg (by simp [hpre1]), if_neg (by simp [hpre2]), hr]

/-- Witness for C3 at a concrete input: the line out_mode_05 1 is classified
through the second matcher with remainder 1. -/
theorem c3_classification_witness : dispatch "out_mode_05 1" = "Chiller turned on" := by
  have h := ((c3_classification "out_mode_05 1" (by decide)).2.1 (by decide) (by decide)).1
    "out_mode_05".data ['1'] (by decide) (by decide)
  exact h.trans (by decide)

/-- Generalisation for C10: a leading run of LF characters (the leftover of a
previous CRLF-terminated frame) is invisible to the responder, because the
trim of each accumulated line removes it before classification. -/
theorem chillerRun_lf_prefix (cmds : List String) (h : ∀ c ∈ cmds, '\r' ∉ c.data) :
    ∀ pre : List Char, (∀ x ∈ pre, x = '\n') →
      chillerRun (pre ++ stream ['\r', '\n'] cmds) = chillerRun (stream ['\r'] cmds) := by
  induction cmds with
  | nil =>
    intro pre hpre
    simp only [stream, List.append_nil]
    rw [chillerRun_nil]
    exact chillerRun_ws_no_cr
      (fun x hx => by rw [hpre x hx]; decide)
      (fun hx => by have := hpre _ hx; simp at this)
  | cons c cs ih =>
    intro pre hpre
    have hc : '\r' ∉ c.data := h c (by simp)
    have hcs : ∀ x ∈ cs, '\r' ∉ x.data := fun x hx => h x (by simp [hx])
    have hpc : '\r' ∉ pre ++ c.data := by
      intro hx
      rcases List.mem_append.mp hx with hx | hx
      · have := hpre _ hx; simp at this
      · exact hc hx
    have hL : pre ++ stream ['\r', '\n'] (c :: cs) =
        (pre ++ c.data) ++ '\r' :: ('\n' :: stream ['\r', '\n'] cs) := by
      simp [stream, List.append_assoc]
    have hR : stream ['\r'] (c :: cs) = c.data ++ '\r' :: stream ['\r'] cs := by
      simp [stream]
    rw [hL, hR, chillerRun_step _ hpc, chillerRun_step _ hc]
    rw [pyStrip_prefix_ws c.data (fun x hx => by rw [hpre x hx]; decide)]
    have hnext : chillerRun ('\n' :: stream ['\r', '\n'] cs) = chillerRun (stream ['\r'] cs) :=
      ih hcs ['\n'] (by simp)
    rw [hnext]

/-- C10: the Device Responder reads only until CR, so a CRLF-terminated frame
leaves its LF in the stream; that LF becomes the first character of the next
accumulated line and the surrounding-whitespace trim removes it before
classification.  Hence every sequence of CRLF-terminated commands produces
exactly the same responses, command for command, as the same sequence
terminated with CR alone. -/
theorem c10_crlf_tolerated (cmds : List String) (h : ∀ c ∈ cmds, '\r' ∉ c.data) :
    chillerRun (stream ['\r', '\n'] cmds) = chillerRun (stream ['\r'] cmds) := by
  have := chillerRun_lf_prefix cmds h [] (by simp)
  simpa using this

/-- Witness for C10 at a concrete input: the two-command sequence VERSION,
out_mode_05 1 behaves identically under CRLF and CR termination. -/
theorem c10_crlf_tolerated_witness :
    chillerRun (stream ['\r', '\n'] ["VERSION", "out_mode_05 1"]) =
      chillerRun (stream ['\r'] ["VERSION", "out_mode_05 1"]) :=
  c10_crlf_tolerated ["VERSION", "out_mode_05 1"] (by decide)

/-- C8: the codec round-trip.  For every command whose name holds no space
and whose name and parameter carry no leading or trailing whitespace (frames
are ASCII byte sequences, so every character of the frame is ASCII), and for
both terminator policies: encoding the command, then decoding the frame
(strip the trailing terminator, decode the bytes) and splitting the result
at its first space recovers the original name and parameter exactly, a
parameter that is empty or absent round-tripping to an absent parameter. -/
theorem c8_roundtrip (an : Bool) (nm : String) (param : Option String)
    (hsp : ' ' ∉ nm.data)
    (hnm : noEdgeWS nm.data)
    (hpm : ∀ p, param = some p → noEdgeWS p.data)
    (hA : ∀ c ∈ (encodeFrame an nm param).data, c.toNat < 128) :
    ∃ bs, encodeAscii (encodeFrame an nm param) = some bs ∧
      splitFirstSpace (decodeLine bs).data =
        (nm.data,
          match param with
          | some p => if p = "" then none else some p.data
          | none => none) := by
  refine ⟨(encodeFrame an nm param).data.map Char.toNat, ?_, ?_⟩
  · simp only [encodeAscii]
    rw [if_pos (List.all_eq_true.mpr fun c hc => decide_eq_true (hA c hc))]
  · have hdec : decodeLine ((encodeFrame an nm param).data.map Char.toNat) =
        ⟨dropTrailingRN (encodeFrame an nm param).data⟩ := by
      simp only [decodeLine, decodeAsciiIgnore_map hA]
    rw [hdec]
    have hterm : ∀ x ∈ (if an then ("\r\n" : String) else "\r").data,
        (x = '\r' || x = '\n') = true := by
      cases an <;> decide
    have hlastnm : ∀ c, nm.data.getLast? = some c → (c = '\r' || c = '\n') = false :=
      fun c hc => not_rn (hnm.2 c hc)
    rcases param with _ | p
    · have hfr : encodeFrame an nm none = nm ++ (if an then "\r\n" else "\r") := by
        cases an <;> simp [encodeFrame]
      have hstrip : dropTrailingRN (encodeFrame an nm none).data = nm.data := by
        rw [hfr, String.data_append]
        exact dropTrailingRN_append nm.data hterm hlastnm
      show splitFirstSpace (dropTrailingRN (encodeFrame an nm none).data) = (nm.data, none)
      rw [hstrip, splitFirstSpace_no_space hsp]
    · by_cases hp : p = ""
      · subst hp
        have hfr : encodeFrame an nm (some "") = nm ++ (if an then "\r\n" else "\r") := by
          cases an <;> simp [encodeFrame]
        have hstrip : dropTrailingRN (encodeFrame an nm (some "")).data = nm.data := by
          rw [hfr, String.data_append]
          exact dropTrailingRN_append nm.data hterm hlastnm
        show splitFirstSpace (dropTrailingRN (encodeFrame an nm (some "")).data) =
          (nm.data, none)
        rw [hstrip, splitFirstSpace_no_space hsp]
      · have hfr : encodeFrame an nm (some p) =
            (nm ++ " " ++ p) ++ (if an then "\r\n" else "\r") := by
          cases an <;> simp [encodeFrame, hp]
        have hdata : (nm ++ " " ++ p).data = (nm.data ++ [' ']) ++ p.data := by
          rw [String.data_append, String.data_append]
        have hlastp : ∀ c, ((nm.data ++ [' ']) ++ p.data).getLast? = some c →
            (c = '\r' || c = '\n') = false := by
          intro c hc
          rw [getLast?_append_right _ (data_ne_nil hp)] at hc
          exact not_rn ((hpm p rfl).2 c hc)
        have hstrip : dropTrailingRN (encodeFrame an nm (some p)).data =
            (nm.data ++ [' ']) ++ p.data := by
          rw [hfr, String.data_append, hdata]
          exact dropTrailingRN_append _ hterm hlastp
        have hassoc : (nm.data ++ [' ']) ++ p.data = nm.data ++ ' ' :: p.data := by
          simp
        show splitFirstSpace (dropTrailingRN (encodeFrame an nm (some p)).data) =
          (nm.data, if p = "" then none else some p.data)
        rw [hstrip, hassoc, splitFirstSpace_append p.data hsp, if_neg hp]

/-- Witness for C8 at a concrete input: the command out_sp_00 with parameter
24.00, CRLF terminator, round-trips to the original pair. -/
theorem c8_roundtrip_witness :
    ∃ bs, encodeAscii (encodeFrame true "out_sp_00" (some "24.00")) = some bs ∧
      splitFirstSpace (decodeLine bs).data =
        ("out_sp_00".data, some "24.00".data) := by
  have h := c8_roundtrip true "out_sp_00" (some "24.00") (by decide)
    (by
      constructor
      · intro c hc
        simp at hc
        rw [← hc]
        decide
      · intro c hc
        simp at hc
        rw [← hc]
        decide)
    (by
      intro p hp
      cases hp
      constructor
      · intro c hc
        simp at hc
        rw [← hc]
        decide
      · intro c hc
        simp at hc
        rw [← hc]
        decide)
    (by decide)
  obtain ⟨bs, h1, h2⟩ := h
  exact ⟨bs, h1, h2.trans rfl⟩

end SerialChiller
